import Mathlib

/-!
# Verification of wimlib's security descriptor table codec (`src/security.c`)

Shallow embedding of `read_security_data`, `write_security_data` and
`free_security_data` from `src/security.c`, together with a heap/allocator
model used for the claims about memory release on the error paths.

Bytes are modelled as `List Nat`; machine integers are `Nat` with explicit
`% 2^32` / `% 2^64` where the source performs 32/64-bit arithmetic.
-/

namespace Wimlib

/-- Error codes returned by `read_security_data`:
`WIMLIB_ERR_INVALID_RESOURCE_SIZE` and `WIMLIB_ERR_NOMEM`. -/
inductive WimlibErr where
  | invalidResourceSize
  | nomem
deriving DecidableEq, Repr

/-- `struct wim_security_data`: `total_length` and `num_entries` are `u32`,
`sizes` is an array of `u64`, `descriptors` an array of byte buffers whose
lengths are given by `sizes`, `refcnt` an unsigned reference count. -/
structure wim_security_data where
  total_length : Nat
  num_entries : Nat
  sizes : List Nat
  descriptors : List (List Nat)
  refcnt : Nat
deriving DecidableEq, Repr

/-- Modelled from the spec: the on-disk layout is little-endian
(§6 "On-disk security descriptor table layout"); `getLEval k bs` reads a
`k`-byte little-endian value from the front of `bs` (missing bytes read
as 0; the C helpers `get_u32`/`get_u64` live in `io.h`, not under `src/`). -/
def getLEval : Nat → List Nat → Nat
  | 0, _ => 0
  | _ + 1, [] => 0
  | k + 1, b :: bs => b + 256 * getLEval k bs

/-- Modelled from the spec: little-endian serialization of a value into
`k` bytes (the C helpers `put_u32`/`put_u64` live in `io.h`, not under
`src/`). -/
def putLEbytes : Nat → Nat → List Nat
  | 0, _ => []
  | k + 1, v => v % 256 :: putLEbytes k (v / 256)

/-- `get_u32(p + off)`: read a little-endian 32-bit value at offset `off`.
The result of assembling 4 bytes is below `2^32` for genuine byte buffers;
the mask makes the u32 range explicit. -/
def get_u32 (buf : List Nat) (off : Nat) : Nat :=
  getLEval 4 (buf.drop off) % 2 ^ 32

/-- `get_u64(p + off)`: read a little-endian 64-bit value at offset `off`. -/
def get_u64 (buf : List Nat) (off : Nat) : Nat :=
  getLEval 8 (buf.drop off) % 2 ^ 64

/-- `put_u32`: write a `u32` as 4 little-endian bytes. -/
def put_u32 (v : Nat) : List Nat := putLEbytes 4 v

/-- `put_u64`: write a `u64` as 8 little-endian bytes. -/
def put_u64 (v : Nat) : List Nat := putLEbytes 8 v

/-- The sizes array read by `get_bytes(p, sizes_size, sd->sizes)` followed by
`array_to_le64`: `num_entries` consecutive little-endian `u64` values starting
at offset `off` (offset 8 in the resource). -/
def readSizes (buf : List Nat) : Nat → Nat → List Nat
  | _, 0 => []
  | off, n + 1 => get_u64 buf off :: readSizes buf (off + 8) n

/-- The descriptor-reading loop of `read_security_data`
(`security.c:122-147`).  Arguments: the metadata resource, the declared
`sd->total_length`, the remaining `sizes` entries, the running `total_len`
accumulator (a `u64`, hence the `% 2^64`), and the read cursor `p`.

The overflow test `total_len + sd->sizes[i] < total_len` at
`security.c:125-130` only issues `ERROR(...)` (a log message) and falls
through — there is no `goto out_free_sd` in that branch — so it has no
effect on the result and the addition simply wraps, which the `% 2^64`
reflects. -/
def read_sd_loop (buf : List Nat) (tl32 : Nat) :
    List Nat → Nat → Nat → Except WimlibErr (List (List Nat) × Nat)
  | [], total_len, _pos => .ok ([], total_len)
  | s :: rest, total_len, pos =>
    let total_len' := (total_len + s) % 2 ^ 64
    if total_len' > tl32 then
      .error .invalidResourceSize
    else
      match read_sd_loop buf tl32 rest total_len' (pos + s) with
      | .error e => .error e
      | .ok (ds, tl) => .ok (((buf.drop pos).take s) :: ds, tl)

/-- `read_security_data(metadata_resource, metadata_resource_len, sd_p)`
(`security.c:47-155`), as a pure function: `.ok` is the table stored through
`*sd_p`, `.error` the nonzero return code.  Allocations are assumed to
succeed here (the allocator-aware model is `read_security_data_alloc`
below).  Reads use `drop`/`take` on the buffer; in every execution that is
defined in C the checks keep all reads within `total_length ≤
metadata_resource_len` bytes. -/
def read_security_data (metadata_resource : List Nat)
    (metadata_resource_len : Nat) : Except WimlibErr wim_security_data :=
  let total_length := get_u32 metadata_resource 0
  let num_entries := get_u32 metadata_resource 4
  if total_length > metadata_resource_len then
    .error .invalidResourceSize
  else if num_entries = 0 then
    -- "No security data": total_len = 8, goto out, sd->total_length = (u32)8
    .ok { total_length := 8, num_entries := 0, sizes := [], descriptors := [],
          refcnt := 1 }
  else
    let sizes_size := num_entries * 8
    let size_no_descriptors := 8 + sizes_size
    if size_no_descriptors > total_length then
      .error .invalidResourceSize
    else
      let sizes := readSizes metadata_resource 8 num_entries
      match read_sd_loop metadata_resource total_length sizes
          size_no_descriptors size_no_descriptors with
      | .error e => .error e
      | .ok (descriptors, total_len) =>
        -- out: sd->total_length = (u32)total_len
        .ok { total_length := total_len % 2 ^ 32, num_entries := num_entries,
              sizes := sizes, descriptors := descriptors, refcnt := 1 }

/-- `write_security_data(sd, p)` (`security.c:160-179`): the bytes appended
at `p` — the `u32` header fields, then each size as a little-endian `u64` in
index order, then each descriptor's raw bytes in index order.  The C loops
run over indices `0 ≤ i < sd->num_entries` of the two arrays, which for any
table within the structure's invariants (arrays of exactly `num_entries`
entries; out-of-range indexing is undefined in C) is the traversal of the
two lists; `put_bytes(p, sd->sizes[i], sd->descriptors[i])` copies exactly
`sizes[i]` bytes from descriptor `i`, hence the `take`. -/
def write_security_data (sd : wim_security_data) : List Nat :=
  put_u32 sd.total_length ++ put_u32 sd.num_entries
    ++ (sd.sizes.map put_u64).flatten
    ++ ((sd.sizes.zip sd.descriptors).map (fun p => p.2.take p.1)).flatten

/-!
## Heap / allocator model

`read_security_data` and `free_security_data` manage memory through
`MALLOC`/`CALLOC`/`FREE`.  A heap is a set of live block identifiers plus a
fresh-id counter; an allocation oracle (one `Bool` per `MALLOC`/`CALLOC`
attempt, in program order) decides which allocations fail with `NULL`.
-/

/-- The allocator state: `next` is the next fresh block id, `live` the set
of currently allocated block ids. -/
structure Heap where
  next : Nat
  live : Finset Nat
deriving DecidableEq

/-- A successful `MALLOC`/`CALLOC`: returns a fresh block id. -/
def Heap.alloc (h : Heap) : Nat × Heap :=
  (h.next, ⟨h.next + 1, insert h.next h.live⟩)

/-- `FREE(id)`. -/
def Heap.free (h : Heap) (id : Nat) : Heap :=
  ⟨h.next, h.live.erase id⟩

/-- `FREE(p)` where `p` may be `NULL`: `FREE(NULL)` is a no-op. -/
def Heap.freeOpt (h : Heap) : Option Nat → Heap
  | none => h
  | some id => h.free id

/-- One allocation attempt, consuming the head of the oracle: `false` means
the allocation returns `NULL`.  An exhausted oracle means all remaining
allocations succeed. -/
def allocTry : List Bool → Heap → Option Nat × List Bool × Heap
  | [], h => ((h.alloc).1, [], (h.alloc).2)
  | b :: rest, h =>
    if b then ((h.alloc).1, rest, (h.alloc).2) else (none, rest, h)

/-- The blocks of one (possibly only partly constructed)
`struct wim_security_data`: the struct itself (`self`), the `sizes` array,
the `descriptors` pointer array, and the descriptor buffers allocated so
far.  `descBlks` lists the non-`NULL` slots of the `CALLOC`ed `descriptors`
array: the remaining slots are `NULL` and `FREE(NULL)` is a no-op, so they
have no heap effect. -/
structure sd_heap_cell where
  self : Nat
  sizesBlk : Option Nat
  descArrayBlk : Option Nat
  descBlks : List Nat
  refcnt : Nat
deriving DecidableEq

/-- The `FREE` calls issued by the teardown branch of `free_security_data`
(`security.c:271-279`), in program order: each descriptor buffer, then
`sd->sizes`, then `sd->descriptors`, then `sd` itself. -/
def sd_heap_cell.freeOrder (c : sd_heap_cell) : List (Option Nat) :=
  (c.descBlks.map some) ++ [c.sizesBlk, c.descArrayBlk, some c.self]

/-- The set of block ids owned by the cell. -/
def sd_heap_cell.blockSet (c : sd_heap_cell) : Finset Nat :=
  insert c.self (c.descBlks.toFinset
    ∪ (c.sizesBlk.elim ∅ singleton) ∪ (c.descArrayBlk.elim ∅ singleton))

/-- Result of `free_security_data`: either the `wimlib_assert(sd->refcnt >=
1)` fired, or the call returns with an updated heap and the surviving table
(`none` once the table has been torn down). -/
inductive FreeResult where
  | assertFailed : FreeResult
  | ok : Heap → Option sd_heap_cell → FreeResult
deriving DecidableEq

/-- `free_security_data(sd)` (`security.c:266-283`): a `NULL` pointer
returns immediately (before the assertion); otherwise
`wimlib_assert(sd->refcnt >= 1)`, then either full teardown (when `refcnt
== 1`) or a bare decrement. -/
def free_security_data (p : Option sd_heap_cell) (h : Heap) : FreeResult :=
  match p with
  | none => .ok h none
  | some c =>
    if 1 ≤ c.refcnt then
      if c.refcnt = 1 then
        .ok (c.freeOrder.foldl Heap.freeOpt h) none
      else
        .ok h (some { c with refcnt := c.refcnt - 1 })
    else .assertFailed

/-- The heap after `free_security_data(sd)` on the decode error paths
(`goto out_free_sd`); there `sd` is non-`NULL` with `refcnt == 1`, so the
assertion cannot fire (the fallback arm is unreachable on those paths). -/
def sd_free_heap (p : Option sd_heap_cell) (h : Heap) : Heap :=
  match free_security_data p h with
  | .ok h' _ => h'
  | .assertFailed => h

/-- The descriptor-reading loop of `read_security_data`, allocator-aware:
same control flow as `read_sd_loop` plus the `MALLOC(sd->sizes[i])` at
`security.c:139` and the `free_security_data(sd)` of `goto out_free_sd` on
each failure path.  Descriptor contents do not matter for the allocation
claims and are not tracked here. -/
def read_alloc_loop (buf : List Nat) (tl32 : Nat) :
    List Nat → List Bool → sd_heap_cell → Nat → Heap →
    Except WimlibErr sd_heap_cell × Heap
  | [], _oracle, cell, _total_len, h => (.ok cell, h)
  | s :: rest, oracle, cell, total_len, h =>
    let total_len' := (total_len + s) % 2 ^ 64
    if total_len' > tl32 then
      (.error .invalidResourceSize, sd_free_heap (some cell) h)
    else
      match allocTry oracle h with
      | (none, _, h') => (.error .nomem, sd_free_heap (some cell) h')
      | (some id, oracle', h') =>
        read_alloc_loop buf tl32 rest oracle'
          { cell with descBlks := cell.descBlks ++ [id] } total_len' h'

/-- `read_security_data` with the allocator made explicit: every
`MALLOC`/`CALLOC` consults the oracle, every failure path runs `goto
out_free_sd` (i.e. `free_security_data(sd)`).  `.ok` returns the table's
cell (its blocks stay live, owned by the caller through `*sd_p`); `.error`
returns the nonzero error code and writes nothing through `sd_p`. -/
def read_security_data_alloc (oracle : List Bool) (buf : List Nat)
    (len : Nat) (h : Heap) : Except WimlibErr sd_heap_cell × Heap :=
  match allocTry oracle h with
  | (none, _, h') => (.error .nomem, h')
  | (some selfId, oracle1, h1) =>
    let cell0 : sd_heap_cell :=
      { self := selfId, sizesBlk := none, descArrayBlk := none,
        descBlks := [], refcnt := 1 }
    let total_length := get_u32 buf 0
    let num_entries := get_u32 buf 4
    if total_length > len then
      (.error .invalidResourceSize, sd_free_heap (some cell0) h1)
    else if num_entries = 0 then
      (.ok cell0, h1)
    else
      let size_no_descriptors := 8 + num_entries * 8
      if size_no_descriptors > total_length then
        (.error .invalidResourceSize, sd_free_heap (some cell0) h1)
      else
        match allocTry oracle1 h1 with
        | (none, _, h2) => (.error .nomem, sd_free_heap (some cell0) h2)
        | (some sizesId, oracle2, h2) =>
          let cell1 := { cell0 with sizesBlk := some sizesId }
          match allocTry oracle2 h2 with
          | (none, _, h3) => (.error .nomem, sd_free_heap (some cell1) h3)
          | (some arrId, oracle3, h3) =>
            let cell2 := { cell1 with descArrayBlk := some arrId }
            read_alloc_loop buf total_length
              (readSizes buf 8 num_entries) oracle3 cell2
              size_no_descriptors h3

/-!
## Helper lemmas
-/

theorem putLEbytes_length (k : Nat) : ∀ v, (putLEbytes k v).length = k := by
  induction k with
  | zero => intro v; rfl
  | succ k ih => intro v; simp [putLEbytes, ih]

theorem getLEval_putLEbytes (k : Nat) :
    ∀ (v : Nat) (r : List Nat),
      getLEval k (putLEbytes k v ++ r) = v % 256 ^ k := by
  induction k with
  | zero =>
    intro v r
    simp only [putLEbytes, getLEval, pow_zero, Nat.mod_one]
  | succ k ih =>
    intro v r
    show v % 256 + 256 * getLEval k (putLEbytes k (v / 256) ++ r)
      = v % 256 ^ (k + 1)
    rw [ih, pow_succ, mul_comm (256 ^ k) 256, Nat.mod_mul]

theorem readSizes_length (buf : List Nat) :
    ∀ (n off : Nat), (readSizes buf off n).length = n := by
  intro n
  induction n with
  | zero => intro off; rfl
  | succ n ih => intro off; simp [readSizes, ih]

/-- If the descriptor loop succeeds, the final accumulator is the initial
accumulator plus the sum of the sizes, modulo `2^64`. -/
theorem read_sd_loop_sum_eq (buf : List Nat) (tl32 : Nat) :
    ∀ (ss : List Nat) (a pos : Nat) (ds : List (List Nat)) (tl : Nat),
      a < 2 ^ 64 →
      read_sd_loop buf tl32 ss a pos = .ok (ds, tl) →
      tl = (a + ss.sum) % 2 ^ 64 := by
  intro ss
  induction ss with
  | nil =>
    intro a pos ds tl ha h
    simp only [read_sd_loop, Except.ok.injEq, Prod.mk.injEq] at h
    rw [← h.2, List.sum_nil, Nat.add_zero, Nat.mod_eq_of_lt ha]
  | cons s rest ih =>
    intro a pos ds tl ha h
    simp only [read_sd_loop] at h
    split at h
    · exact absurd h (by simp)
    · split at h
      · exact absurd h (by simp)
      · rename_i ds' tl' hloop
        have hrec := ih ((a + s) % 2 ^ 64) (pos + s) ds' tl'
          (Nat.mod_lt _ (by norm_num)) hloop
        simp only [Except.ok.injEq, Prod.mk.injEq] at h
        rw [← h.2, hrec, Nat.mod_add_mod, List.sum_cons, ← Nat.add_assoc]

/-- If some prefix of the sizes pushes the (non-wrapping) accumulated total
above the declared `total_length`, the descriptor loop fails with
`InvalidResourceSize`. -/
theorem read_sd_loop_overrun (buf : List Nat) (tl32 : Nat) :
    ∀ (ss : List Nat) (a pos : Nat),
      (∃ i, i < ss.length ∧ a + (ss.take (i + 1)).sum > tl32 ∧
            a + (ss.take (i + 1)).sum < 2 ^ 64) →
      read_sd_loop buf tl32 ss a pos = .error .invalidResourceSize := by
  intro ss
  induction ss with
  | nil => intro a pos h; exact absurd h.choose_spec.1 (by simp)
  | cons s rest ih =>
    intro a pos h
    obtain ⟨i, hi, hgt, hlt⟩ := h
    simp only [read_sd_loop]
    cases i with
    | zero =>
      simp only [List.take_succ_cons, List.take_zero, List.sum_cons,
        List.sum_nil, Nat.add_zero] at hgt hlt
      rw [Nat.mod_eq_of_lt hlt]
      simp [hgt]
    | succ k =>
      simp only [List.take_succ_cons, List.sum_cons] at hgt hlt
      have hs : a + s < 2 ^ 64 := by omega
      rw [Nat.mod_eq_of_lt hs]
      by_cases hcase : a + s > tl32
      · simp [hcase]
      · rw [if_neg hcase]
        rw [ih (a + s) (pos + s)
          ⟨k, by simpa using Nat.lt_of_succ_lt_succ hi, by omega, by omega⟩]

/-- With index-aligned sizes and descriptors (`len(descriptors[i]) =
sizes[i]`), the truncating copy of `put_bytes` writes each descriptor
whole. -/
theorem zip_take_eq {ss : List Nat} {ds : List (List Nat)}
    (h : List.Forall₂ (fun s d => (d : List Nat).length = s) ss ds) :
    (ss.zip ds).map (fun p => p.2.take p.1) = ds := by
  induction h with
  | nil => rfl
  | cons hsd _ ih =>
    rename_i s d ss' ds'
    simp only [List.zip_cons_cons, List.map_cons, ih, ← hsd,
      List.take_length]

/-- Concatenated index-aligned descriptors occupy exactly `sum(sizes)`
bytes. -/
theorem flatten_desc_length {ss : List Nat} {ds : List (List Nat)}
    (h : List.Forall₂ (fun s d => (d : List Nat).length = s) ss ds) :
    ds.flatten.length = ss.sum := by
  induction h with
  | nil => rfl
  | cons hsd _ ih =>
    simp only [List.flatten_cons, List.length_append, ih, hsd,
      List.sum_cons]

/-- The serialized sizes array occupies exactly `8 * num_entries` bytes. -/
theorem flatten_put_u64_length (ss : List Nat) :
    ((ss.map put_u64).flatten).length = 8 * ss.length := by
  induction ss with
  | nil => rfl
  | cons s rest ih =>
    simp only [List.map_cons, List.flatten_cons, List.length_append, ih,
      put_u64, putLEbytes_length, List.length_cons]
    ring

/-- Reading back a serialized sizes array recovers the sizes. -/
theorem readSizes_encode (B : List Nat) :
    ∀ (ss : List Nat) (pos : Nat) (rest : List Nat),
      (∀ s ∈ ss, s < 2 ^ 64) →
      B.drop pos = (ss.map put_u64).flatten ++ rest →
      readSizes B pos ss.length = ss := by
  intro ss
  induction ss with
  | nil => intro pos rest _ _; rfl
  | cons s rest' ih =>
    intro pos rest hlt hdrop
    simp only [List.map_cons, List.flatten_cons, List.append_assoc] at hdrop
    have hs64 : s < 2 ^ 64 := hlt s (by simp)
    have hget : get_u64 B pos = s := by
      rw [get_u64, hdrop, put_u64, getLEval_putLEbytes,
        (by norm_num : (256 : Nat) ^ 8 = 2 ^ 64), Nat.mod_mod_of_dvd _ dvd_rfl,
        Nat.mod_eq_of_lt hs64]
    have hdrop' : B.drop (pos + 8) =
        (rest'.map put_u64).flatten ++ rest := by
      rw [← List.drop_drop, hdrop,
        List.drop_left' (by rw [put_u64, putLEbytes_length])]
    simp only [List.length_cons, readSizes, hget,
      ih (pos + 8) rest (fun x hx => hlt x (by simp [hx])) hdrop']

/-- On a buffer whose tail at `pos` is exactly the concatenation of
index-aligned descriptors, the descriptor loop succeeds and reads the
descriptors back byte-for-byte, as long as the accumulated total stays
within the declared `total_length`. -/
theorem read_sd_loop_encode (B : List Nat) (tl32 : Nat)
    (htl64 : tl32 < 2 ^ 64) :
    ∀ {ss : List Nat} {ds : List (List Nat)},
      List.Forall₂ (fun s d => (d : List Nat).length = s) ss ds →
      ∀ (a pos : Nat),
        B.drop pos = ds.flatten →
        a + ss.sum ≤ tl32 →
        read_sd_loop B tl32 ss a pos = .ok (ds, a + ss.sum) := by
  intro ss ds h
  induction h with
  | nil => intro a pos _ _; simp [read_sd_loop]
  | cons hsd htail ih =>
    rename_i s d ss' ds'
    intro a pos hdrop hle
    have hbound : a + s ≤ tl32 := by
      have := List.sum_cons (a := s) (l := ss') ▸ hle; omega
    have hmod : (a + s) % 2 ^ 64 = a + s :=
      Nat.mod_eq_of_lt (lt_of_le_of_lt hbound htl64)
    simp only [List.flatten_cons] at hdrop
    have hdrop' : B.drop (pos + s) = ds'.flatten := by
      rw [← List.drop_drop, hdrop, ← hsd, List.drop_left]
    have htake : (B.drop pos).take s = d := by
      rw [hdrop, ← hsd, List.take_left]
    simp only [read_sd_loop, hmod, if_neg (by omega : ¬ a + s > tl32),
      ih (a + s) (pos + s) hdrop' (by simp at hle ⊢; omega), htake,
      List.sum_cons]
    exact congrArg Except.ok (by rw [Nat.add_assoc])

/-- Folding `FREE` over a list of (possibly `NULL`) pointers removes
exactly the non-`NULL` ones from the live set. -/
theorem foldl_freeOpt_eq (l : List (Option Nat)) :
    ∀ h : Heap, l.foldl Heap.freeOpt h
      = ⟨h.next, h.live \ (l.filterMap id).toFinset⟩ := by
  induction l with
  | nil => intro h; cases h; simp
  | cons o t ih =>
    intro h
    cases o with
    | none => simpa [Heap.freeOpt] using ih h
    | some a =>
      simp only [List.foldl_cons, Heap.freeOpt, Heap.free, ih,
        List.filterMap_cons_some (f := id) (b := a) rfl, List.toFinset_cons]
      refine congrArg (Heap.mk h.next) ?_
      ext x
      simp only [Finset.mem_sdiff, Finset.mem_erase, Finset.mem_insert,
        List.mem_toFinset]
      tauto

/-- The pointers freed by the teardown branch are exactly the cell's
blocks. -/
theorem freeOrder_toFinset (c : sd_heap_cell) :
    ((c.freeOrder.filterMap id).toFinset : Finset Nat) = c.blockSet := by
  cases hs : c.sizesBlk <;> cases hd : c.descArrayBlk <;>
    · ext x
      simp [sd_heap_cell.freeOrder, sd_heap_cell.blockSet, hs, hd,
        List.mem_filterMap]
      tauto

/-- Teardown (`refcnt == 1`) of a cell whose blocks are exactly the live
heap empties the heap. -/
theorem sd_free_heap_all (c : sd_heap_cell) (h : Heap)
    (hrc : c.refcnt = 1) (hlive : h.live = c.blockSet) :
    (sd_free_heap (some c) h).live = ∅ := by
  simp only [sd_free_heap, free_security_data, hrc, le_refl, if_true,
    if_pos rfl, foldl_freeOpt_eq, freeOrder_toFinset, hlive,
    Finset.sdiff_self]

/-- A failed allocation attempt leaves the heap unchanged. -/
theorem allocTry_none {oracle rest : List Bool} {h h' : Heap}
    (heq : allocTry oracle h = (none, rest, h')) : h' = h := by
  cases oracle with
  | nil => simp [allocTry, Heap.alloc] at heq
  | cons b t =>
    cases b <;> simp_all [allocTry, Heap.alloc]

/-- A successful allocation attempt returns the fresh id and inserts it
into the live set. -/
theorem allocTry_some {oracle rest : List Bool} {h h' : Heap} {id : Nat}
    (heq : allocTry oracle h = (some id, rest, h')) :
    id = h.next ∧ h' = ⟨h.next + 1, insert h.next h.live⟩ := by
  cases oracle with
  | nil =>
    simp only [allocTry, Heap.alloc, Prod.mk.injEq, Option.some.injEq]
      at heq
    exact ⟨heq.1.symm, heq.2.2.symm⟩
  | cons b t =>
    cases b with
    | false => simp [allocTry] at heq
    | true =>
      simp only [allocTry, Heap.alloc, if_true] at heq
      simp only [Prod.mk.injEq, Option.some.injEq] at heq
      exact ⟨heq.1.symm, heq.2.2.symm⟩

/-- Appending one descriptor block to a cell adds exactly that block to
its block set. -/
theorem blockSet_push (c : sd_heap_cell) (id : Nat) :
    ({ c with descBlks := c.descBlks ++ [id] } : sd_heap_cell).blockSet
      = insert id c.blockSet := by
  simp only [sd_heap_cell.blockSet]
  ext x
  simp [List.mem_toFinset]
  tauto

/-- If the allocator-aware descriptor loop fails (format error or
allocation failure), every block of the partly constructed table has been
released: the final live set is empty whenever the cell's blocks were
exactly the live set on entry. -/
theorem read_alloc_loop_error (buf : List Nat) (tl32 : Nat) :
    ∀ (ss : List Nat) (oracle : List Bool) (cell : sd_heap_cell)
      (a : Nat) (h : Heap) (e : WimlibErr) (res : Heap),
      cell.refcnt = 1 →
      h.live = cell.blockSet →
      read_alloc_loop buf tl32 ss oracle cell a h = (.error e, res) →
      res.live = ∅ := by
  intro ss
  induction ss with
  | nil =>
    intro oracle cell a h e res _ _ hrun
    simp [read_alloc_loop] at hrun
  | cons s rest ih =>
    intro oracle cell a h e res hrc hlive hrun
    simp only [read_alloc_loop] at hrun
    split at hrun
    · obtain ⟨-, rfl⟩ := Prod.mk.injEq .. ▸ hrun
      exact sd_free_heap_all cell h hrc hlive
    · rcases halloc : allocTry oracle h with ⟨idOpt, oracle', h'⟩
      rw [halloc] at hrun
      cases idOpt with
      | none =>
        have hrun' :
            ((Except.error WimlibErr.nomem : Except WimlibErr sd_heap_cell),
              sd_free_heap (some cell) h') = (Except.error e, res) := hrun
        obtain ⟨-, rfl⟩ := Prod.mk.injEq .. ▸ hrun'
        rw [allocTry_none halloc]
        exact sd_free_heap_all cell h hrc hlive
      | some id =>
        obtain ⟨hid, hh'⟩ := allocTry_some halloc
        refine ih oracle' { cell with descBlks := cell.descBlks ++ [id] }
          ((a + s) % 2 ^ 64) h' e res hrc ?_ (by exact hrun)
        rw [hh', blockSet_push, hid, ← hlive]

/-!
## Theorems
-/

/-- C5: for every table satisfying the structural invariants
(`total_length = 8 + 8*num_entries + sum(sizes)`, index-aligned `sizes` and
`descriptors` of length `num_entries`), `write_security_data` writes
exactly `total_length` bytes — the header, each size as little-endian u64
in index order, each descriptor's raw bytes in index order — so the
internal assertion `p - orig_p == sd->total_length` (`security.c:175`)
holds. -/
theorem C5_write_exact_length (sd : wim_security_data)
    (hlen : sd.sizes.length = sd.num_entries)
    (hdesc : List.Forall₂ (fun s d => (d : List Nat).length = s)
      sd.sizes sd.descriptors)
    (htl : sd.total_length = 8 + 8 * sd.num_entries + sd.sizes.sum) :
    (write_security_data sd).length = sd.total_length := by
  simp only [write_security_data, List.length_append, zip_take_eq hdesc,
    put_u32, putLEbytes_length, flatten_put_u64_length,
    flatten_desc_length hdesc, hlen, htl]

/-- C5 witness: a concrete in-contract table (`num_entries = 1`,
`sizes = [4]`, one 4-byte descriptor, `total_length = 20`) is written as
exactly 20 bytes. -/
theorem C5_write_exact_length_witness :
    (write_security_data
      { total_length := 20, num_entries := 1, sizes := [4],
        descriptors := [[1, 2, 3, 4]], refcnt := 1 }).length = 20 :=
  C5_write_exact_length
    { total_length := 20, num_entries := 1, sizes := [4],
      descriptors := [[1, 2, 3, 4]], refcnt := 1 }
    (by decide) (by simp) (by decide)

/-- C8: for every input buffer of length ≥ 8, `read_security_data` fails
with `WIMLIB_ERR_INVALID_RESOURCE_SIZE` whenever the first 4 bytes declare
a `total_length` greater than the supplied buffer length
(`metadata_resource_len`). -/
theorem C8_bounds_rejection (buf : List Nat) (len : Nat)
    (_h8 : 8 ≤ len) (hgt : get_u32 buf 0 > len) :
    read_security_data buf len = .error .invalidResourceSize := by
  simp [read_security_data, hgt]

/-- C8 witness: a concrete 8-byte buffer declaring `total_length = 9` with
buffer length 8 is rejected. -/
theorem C8_bounds_rejection_witness :
    read_security_data [9, 0, 0, 0, 0, 0, 0, 0] 8
      = .error .invalidResourceSize :=
  C8_bounds_rejection [9, 0, 0, 0, 0, 0, 0, 0] 8 (by decide) (by decide)

/-- C10: `free_security_data` on a `NULL` pointer is a safe no-op: it
returns immediately with the heap unchanged, frees nothing, decrements
nothing, and never reaches the `refcnt` assertion (the result is never
`assertFailed`). -/
theorem C10_free_null_noop (h : Heap) :
    free_security_data none h = .ok h none := rfl

/-- C3 counterexample: the claim "succeeds … regardless of the value stored
in the buffer's total_length field" is false: an 8-byte buffer with
`num_entries = 0` but `total_length = 9 > 8` is rejected with
`InvalidResourceSize` by the bounds check that runs before the
`num_entries == 0` branch (`security.c:76-82`). -/
theorem C3_zero_entries_counterexample :
    get_u32 [9, 0, 0, 0, 0, 0, 0, 0] 4 = 0 ∧
    (8 : Nat) ≤ 8 ∧
    read_security_data [9, 0, 0, 0, 0, 0, 0, 0] 8
      = .error .invalidResourceSize :=
  ⟨rfl, by decide, rfl⟩

/-- C3 (amended): for every input buffer of length ≥ 8 whose `num_entries`
field is 0 and whose `total_length` field does not exceed the buffer
length, `read_security_data` succeeds with `num_entries = 0`, empty `sizes`
and `descriptors`, and `total_length` forced to 8 regardless of the stored
`total_length` value. -/
theorem C3_zero_entries_canonicalized (buf : List Nat) (len : Nat)
    (_h8 : 8 ≤ len) (htl : get_u32 buf 0 ≤ len) (hn : get_u32 buf 4 = 0) :
    read_security_data buf len
      = .ok { total_length := 8, num_entries := 0, sizes := [],
              descriptors := [], refcnt := 1 } := by
  simp [read_security_data, hn, Nat.not_lt.mpr htl]

/-- C3 witness: stored `total_length = 5` (≠ 8), `num_entries = 0`, buffer
length 8: decode succeeds and the table's `total_length` is 8. -/
theorem C3_zero_entries_witness :
    read_security_data [5, 0, 0, 0, 0, 0, 0, 0] 8
      = .ok { total_length := 8, num_entries := 0, sizes := [],
              descriptors := [], refcnt := 1 } :=
  C3_zero_entries_canonicalized [5, 0, 0, 0, 0, 0, 0, 0] 8
    (by decide) (by decide) (by decide)

/-- C1: what the code actually does on a wrapping input.  The buffer
declares `total_length = 16`, `num_entries = 1`, `sizes[0] = 2^64 - 16`;
the accumulator `16 + sizes[0] = 2^64` wraps.  The overflow test at
`security.c:125-130` only logs and falls through, so `read_security_data`
does NOT fail with `InvalidResourceSize`: it proceeds with the wrapped
accumulator (0) and returns success with `total_length = 0`. -/
theorem C1_overflow_only_logged :
    readSizes [16, 0, 0, 0, 1, 0, 0, 0,
               240, 255, 255, 255, 255, 255, 255, 255] 8 1
      = [2 ^ 64 - 16] ∧
    8 + 8 * 1 + (2 ^ 64 - 16) ≥ 2 ^ 64 ∧
    read_security_data [16, 0, 0, 0, 1, 0, 0, 0,
                        240, 255, 255, 255, 255, 255, 255, 255] 16
      = .ok { total_length := 0, num_entries := 1, sizes := [2 ^ 64 - 16],
              descriptors := [[]], refcnt := 1 } :=
  ⟨by decide, by decide, rfl⟩

/-- C2: for every validly constructed table (index-aligned `sizes` and
`descriptors` of length `num_entries`, `total_length = 8 + 8*num_entries +
sum(sizes)` representable as u32), decoding the bytes produced by
`write_security_data` with buffer length `total_length` succeeds and
returns the same `total_length`, `num_entries`, `sizes` and descriptor
bytes (and refcnt 1, as every freshly decoded table). -/
theorem C2_round_trip (sd : wim_security_data)
    (hlen : sd.sizes.length = sd.num_entries)
    (hdesc : List.Forall₂ (fun s d => (d : List Nat).length = s)
      sd.sizes sd.descriptors)
    (htl : sd.total_length = 8 + 8 * sd.num_entries + sd.sizes.sum)
    (htl32 : sd.total_length < 2 ^ 32) :
    read_security_data (write_security_data sd) sd.total_length
      = .ok { sd with refcnt := 1 } := by
  have h32 : (2 : Nat) ^ 32 = 4294967296 := by norm_num
  have h64 : (2 : Nat) ^ 64 = 18446744073709551616 := by norm_num
  have hn32 : sd.num_entries < 2 ^ 32 := by omega
  have htl64 : sd.total_length < 2 ^ 64 := by omega
  have hB : write_security_data sd
      = (put_u32 sd.total_length ++ put_u32 sd.num_entries)
        ++ ((sd.sizes.map put_u64).flatten ++ sd.descriptors.flatten) := by
    simp [write_security_data, zip_take_eq hdesc, List.append_assoc]
  have h0 : get_u32 (write_security_data sd) 0 = sd.total_length := by
    rw [get_u32, List.drop_zero, hB, List.append_assoc]
    show getLEval 4 (putLEbytes 4 sd.total_length ++ _) % 2 ^ 32 = _
    rw [getLEval_putLEbytes, (by norm_num : (256 : Nat) ^ 4 = 2 ^ 32),
      Nat.mod_mod_of_dvd _ dvd_rfl, Nat.mod_eq_of_lt htl32]
  have h4 : get_u32 (write_security_data sd) 4 = sd.num_entries := by
    rw [get_u32, hB, List.append_assoc,
      List.drop_left' (by simp [put_u32, putLEbytes_length])]
    show getLEval 4 (putLEbytes 4 sd.num_entries ++ _) % 2 ^ 32 = _
    rw [getLEval_putLEbytes, (by norm_num : (256 : Nat) ^ 4 = 2 ^ 32),
      Nat.mod_mod_of_dvd _ dvd_rfl, Nat.mod_eq_of_lt hn32]
  have hs64all : ∀ s ∈ sd.sizes, s < 2 ^ 64 := by
    intro s hs
    have hle : s ≤ sd.sizes.sum :=
      List.single_le_sum (fun _ _ => Nat.zero_le _) s hs
    omega
  have hsize_drop : (write_security_data sd).drop 8
      = (sd.sizes.map put_u64).flatten ++ sd.descriptors.flatten := by
    rw [hB, List.drop_left' (by simp [put_u32, putLEbytes_length])]
  have hsizes : readSizes (write_security_data sd) 8 sd.num_entries
      = sd.sizes := by
    rw [← hlen]
    exact readSizes_encode _ sd.sizes 8 sd.descriptors.flatten hs64all
      hsize_drop
  by_cases hn0 : sd.num_entries = 0
  · have hss : sd.sizes = [] := List.eq_nil_of_length_eq_zero (by omega)
    have hds : sd.descriptors = [] := by
      rw [hss] at hdesc
      exact List.forall₂_nil_left_iff.mp hdesc
    have htl8 : sd.total_length = 8 := by rw [htl, hn0, hss]; simp
    simp [read_security_data, h0, h4, hn0, htl8, hss, hds]
  · have hdesc_drop : (write_security_data sd).drop
        (8 + sd.num_entries * 8) = sd.descriptors.flatten := by
      rw [hB, ← List.append_assoc]
      apply List.drop_left'
      simp only [List.length_append, put_u32, putLEbytes_length,
        flatten_put_u64_length, hlen]
      omega
    have hle : (8 + sd.num_entries * 8) + sd.sizes.sum
        ≤ sd.total_length := by omega
    have hloop := read_sd_loop_encode (write_security_data sd)
      sd.total_length htl64 hdesc (8 + sd.num_entries * 8)
      (8 + sd.num_entries * 8) hdesc_drop hle
    simp only [read_security_data, h0, h4, lt_irrefl, if_false, hn0,
      if_neg (by omega : ¬ 8 + sd.num_entries * 8 > sd.total_length),
      hsizes, hloop]
    have hmod : (8 + sd.num_entries * 8 + sd.sizes.sum) % 2 ^ 32
        = sd.total_length := by
      rw [(by omega : 8 + sd.num_entries * 8 + sd.sizes.sum
        = sd.total_length), Nat.mod_eq_of_lt htl32]
    rw [h32] at hmod
    simp [hmod]

/-- C2 witness: the exact-fit table (`total_length = 20`, `num_entries =
1`, `sizes = [4]`, descriptor bytes `[1,2,3,4]`) survives the encode/decode
round trip unchanged. -/
theorem C2_round_trip_witness :
    read_security_data
        (write_security_data
          { total_length := 20, num_entries := 1, sizes := [4],
            descriptors := [[1, 2, 3, 4]], refcnt := 1 }) 20
      = .ok { total_length := 20, num_entries := 1, sizes := [4],
              descriptors := [[1, 2, 3, 4]], refcnt := 1 } :=
  C2_round_trip
    { total_length := 20, num_entries := 1, sizes := [4],
      descriptors := [[1, 2, 3, 4]], refcnt := 1 }
    (by decide) (by simp) (by decide) (by decide)

/-- C4: every table successfully returned by `read_security_data` satisfies
`total_length = (8 + 8*num_entries + sum(sizes)) mod 2^32`: the decode
routine overwrites `total_length` with the computed value narrowed to 32
bits, so information loss is possible only when the computed length exceeds
`2^32 - 1` (otherwise the `mod` is the identity). -/
theorem C4_total_length_invariant (buf : List Nat) (len : Nat)
    (t : wim_security_data)
    (h : read_security_data buf len = .ok t) :
    t.total_length = (8 + 8 * t.num_entries + t.sizes.sum) % 2 ^ 32 := by
  simp only [read_security_data] at h
  split at h
  · exact absurd h (by simp)
  · split at h
    · rename_i hn0
      obtain rfl := (Except.ok.inj h).symm
      simp
    · split at h
      · exact absurd h (by simp)
      · split at h
        · exact absurd h (by simp)
        rename_i ds tl hloop
        have hn32 : get_u32 buf 4 < 2 ^ 32 := Nat.mod_lt _ (by norm_num)
        have ha : 8 + get_u32 buf 4 * 8 < 2 ^ 64 := by
          have h32 : (2 : Nat) ^ 32 = 4294967296 := by norm_num
          have h64 : (2 : Nat) ^ 64 = 18446744073709551616 := by norm_num
          omega
        have hsum := read_sd_loop_sum_eq buf (get_u32 buf 0)
          (readSizes buf 8 (get_u32 buf 4)) (8 + get_u32 buf 4 * 8)
          (8 + get_u32 buf 4 * 8) ds tl ha hloop
        obtain rfl := (Except.ok.inj h).symm
        simp only [hsum]
        rw [Nat.mod_mod_of_dvd _ (by norm_num : (2 : Nat) ^ 32 ∣ 2 ^ 64)]
        ring_nf

/-- C4 witness: the exact-fit input `[total_length=20, num_entries=1,
sizes=[4], 4 descriptor bytes]` decodes successfully and the returned
table satisfies the invariant. -/
theorem C4_total_length_invariant_witness :
    read_security_data
        [20, 0, 0, 0, 1, 0, 0, 0, 4, 0, 0, 0, 0, 0, 0, 0, 1, 2, 3, 4] 20
      = .ok { total_length := 20, num_entries := 1, sizes := [4],
              descriptors := [[1, 2, 3, 4]], refcnt := 1 } ∧
    (20 : Nat) = (8 + 8 * 1 + [4].sum) % 2 ^ 32 :=
  ⟨rfl, C4_total_length_invariant
    [20, 0, 0, 0, 1, 0, 0, 0, 4, 0, 0, 0, 0, 0, 0, 0, 1, 2, 3, 4] 20
    { total_length := 20, num_entries := 1, sizes := [4],
      descriptors := [[1, 2, 3, 4]], refcnt := 1 } rfl⟩

/-- C9: if the header checks pass (`total_length ≤ metadata_resource_len`,
`num_entries ≠ 0`, `8 + 8*num_entries ≤ total_length`) and some prefix of
the decoded sizes makes the accumulated length `8 + 8*num_entries +
sum(sizes[0..i])` exceed the declared `total_length` without wrapping past
`2^64`, then `read_security_data` fails with `InvalidResourceSize`. -/
theorem C9_overrun_rejection (buf : List Nat) (len : Nat)
    (_h8 : 8 ≤ len)
    (h1 : get_u32 buf 0 ≤ len)
    (h2 : get_u32 buf 4 ≠ 0)
    (h3 : 8 + get_u32 buf 4 * 8 ≤ get_u32 buf 0)
    (h4 : ∃ i, i < get_u32 buf 4 ∧
      8 + get_u32 buf 4 * 8
        + ((readSizes buf 8 (get_u32 buf 4)).take (i + 1)).sum
        > get_u32 buf 0 ∧
      8 + get_u32 buf 4 * 8
        + ((readSizes buf 8 (get_u32 buf 4)).take (i + 1)).sum
        < 2 ^ 64) :
    read_security_data buf len = .error .invalidResourceSize := by
  simp only [read_security_data, Nat.not_lt.mpr h1, if_neg, if_false,
    Nat.not_lt.mpr h3, h2, if_neg (by omega : ¬ get_u32 buf 0 > len),
    if_neg (by omega : ¬ 8 + get_u32 buf 4 * 8 > get_u32 buf 0)]
  rw [read_sd_loop_overrun buf (get_u32 buf 0)
    (readSizes buf 8 (get_u32 buf 4)) (8 + get_u32 buf 4 * 8)
    (8 + get_u32 buf 4 * 8)
    (by rwa [readSizes_length])]

/-- C9 witness: the input `[total_length=20, num_entries=1, sizes=[20]]`
(accumulated length `8 + 8 + 20 = 36 > 20`) is rejected with
`InvalidResourceSize`. -/
theorem C9_overrun_rejection_witness :
    read_security_data
        [20, 0, 0, 0, 1, 0, 0, 0, 20, 0, 0, 0, 0, 0, 0, 0, 0, 0, 0, 0] 20
      = .error .invalidResourceSize :=
  C9_overrun_rejection
    [20, 0, 0, 0, 1, 0, 0, 0, 20, 0, 0, 0, 0, 0, 0, 0, 0, 0, 0, 0] 20
    (by decide) (by decide) (by decide) (by decide)
    ⟨0, by decide, by decide, by decide⟩

/-- C6: whenever the allocator-aware `read_security_data` fails — with
`InvalidResourceSize` or `OutOfMemory`, at any of its failure points — no
partial table is returned (the `.error` result carries no cell, so nothing
is stored through `sd_p`) and every block allocated during the call has
been released: starting from a heap with no live allocations, the final
live set is empty. -/
theorem C6_error_releases_all (oracle : List Bool) (buf : List Nat)
    (len : Nat) (h0 : Heap) (e : WimlibErr) (res : Heap)
    (hlive : h0.live = ∅)
    (hrun : read_security_data_alloc oracle buf len h0
      = (.error e, res)) :
    res.live = ∅ := by
  simp only [read_security_data_alloc] at hrun
  split at hrun
  · -- MALLOC(sizeof(struct wim_security_data)) failed: nothing allocated
    rename_i fst h' heq
    obtain ⟨-, rfl⟩ := Prod.mk.injEq .. ▸ hrun
    rw [allocTry_none heq]
    exact hlive
  · rename_i selfId oracle1 h1 heq
    obtain ⟨hid, hh1⟩ := allocTry_some heq
    have hl1 : h1.live =
        (⟨selfId, none, none, [], 1⟩ : sd_heap_cell).blockSet := by
      rw [hh1, hid, hlive]
      simp [sd_heap_cell.blockSet]
    split at hrun
    · -- total_length > metadata_resource_len
      obtain ⟨-, rfl⟩ := Prod.mk.injEq .. ▸ hrun
      exact sd_free_heap_all _ _ rfl hl1
    · split at hrun
      · -- num_entries == 0: success, contradiction
        exact absurd hrun (by simp)
      · split at hrun
        · -- 8 + sizes_size > total_length
          obtain ⟨-, rfl⟩ := Prod.mk.injEq .. ▸ hrun
          exact sd_free_heap_all _ _ rfl hl1
        · split at hrun
          · -- MALLOC(sizes_size) failed
            rename_i fst h2 heq2
            obtain ⟨-, rfl⟩ := Prod.mk.injEq .. ▸ hrun
            rw [allocTry_none heq2]
            exact sd_free_heap_all _ _ rfl hl1
          · rename_i sizesId oracle2 h2 heq2
            obtain ⟨hid2, hh2⟩ := allocTry_some heq2
            have hl2 : h2.live =
                (⟨selfId, some sizesId, none, [], 1⟩ :
                  sd_heap_cell).blockSet := by
              rw [hh2, hid2, hl1]
              ext x
              simp [sd_heap_cell.blockSet]
              tauto
            split at hrun
            · -- CALLOC(num_entries, sizeof(u8*)) failed
              rename_i fst h3 heq3
              obtain ⟨-, rfl⟩ := Prod.mk.injEq .. ▸ hrun
              rw [allocTry_none heq3]
              exact sd_free_heap_all _ _ rfl hl2
            · rename_i arrId oracle3 h3 heq3
              obtain ⟨hid3, hh3⟩ := allocTry_some heq3
              have hl3 : h3.live =
                  (⟨selfId, some sizesId, some arrId, [], 1⟩ :
                    sd_heap_cell).blockSet := by
                rw [hh3, hid3, hl2]
                ext x
                simp [sd_heap_cell.blockSet]
                tauto
              exact read_alloc_loop_error buf _ _ oracle3 _ _ h3 e res
                rfl hl3 hrun

/-- C6 witness: with an oracle failing the very first allocation, decode
returns `OutOfMemory` and the final heap has no live blocks. -/
theorem C6_error_releases_all_witness :
    read_security_data_alloc [false] [] 0 ⟨0, ∅⟩
        = (.error .nomem, ⟨0, ∅⟩) ∧
    (read_security_data_alloc [false] [] 0 ⟨0, ∅⟩).2.live = ∅ :=
  ⟨rfl, C6_error_releases_all [false] [] 0 ⟨0, ∅⟩ .nomem _ rfl rfl⟩

/-- C7: teardown-at-zero semantics of `free_security_data` on a non-`NULL`
table with `refcnt ≥ 1`: if `refcnt > 1` the call only decrements `refcnt`
(the heap is returned unchanged, so no storage is freed, and the surviving
table keeps all its blocks and other fields); if `refcnt = 1` the call
frees every descriptor buffer, the `sizes` array, the `descriptors` array
and the table itself (exactly the cell's block set leaves the live set) and
no table survives. -/
theorem C7_refcount_semantics (c : sd_heap_cell) (h : Heap)
    (hrc : 1 ≤ c.refcnt) :
    free_security_data (some c) h =
      if c.refcnt = 1 then
        .ok ⟨h.next, h.live \ c.blockSet⟩ none
      else
        .ok h (some { c with refcnt := c.refcnt - 1 }) := by
  simp only [free_security_data, if_pos hrc]
  by_cases h1 : c.refcnt = 1
  · simp only [h1, if_pos rfl, foldl_freeOpt_eq, freeOrder_toFinset]
  · simp only [if_neg h1]

/-- C7 witness: on a table owning blocks `{0,1,2,3,4}` (struct 0, sizes 1,
descriptor array 2, descriptor buffers 3 and 4), a call at `refcnt = 2`
only decrements the counter and leaves the heap intact, and a call at
`refcnt = 1` empties the live set and destroys the table. -/
theorem C7_refcount_semantics_witness :
    free_security_data (some ⟨0, some 1, some 2, [3, 4], 2⟩)
        ⟨5, {0, 1, 2, 3, 4}⟩
      = .ok ⟨5, {0, 1, 2, 3, 4}⟩ (some ⟨0, some 1, some 2, [3, 4], 1⟩) ∧
    free_security_data (some ⟨0, some 1, some 2, [3, 4], 1⟩)
        ⟨5, {0, 1, 2, 3, 4}⟩
      = .ok ⟨5, ∅⟩ none := by
  constructor
  · rw [C7_refcount_semantics ⟨0, some 1, some 2, [3, 4], 2⟩
      ⟨5, {0, 1, 2, 3, 4}⟩ (by decide)]
    decide
  · rw [C7_refcount_semantics ⟨0, some 1, some 2, [3, 4], 1⟩
      ⟨5, {0, 1, 2, 3, 4}⟩ (by decide)]
    decide

end Wimlib
